import Mathlib

/-!
Verification development for the dynamic-anchor portal component
(react-dynamic-portal).  The definitions below are a shallow embedding of
the source files:

  * src/packages/component/src/index.ts  — the packaged MagicPortal
    component (namespace MP below);
  * src/unnamed/part_000                 — the DynamicPortal variant with
    the anchor-identity guard in updateAnchor and the cleanup effect
    (namespace DP below);
  * src/unnamed/part_001                 — the MagicPortal variant whose
    MutationObserver computes isSelfMutation (namespace MP1 below).

DOM elements are modelled by natural-number identifiers (object identity
in JavaScript becomes equality of ids).  A document is an association
list from a node id to its ordered list of child ids; the body element is
node 0.  Selector matching is modelled by a table listing, for each
element, the ids of the selectors it matches.  Thrown JavaScript
exceptions are modelled with Except.
-/

/-- Strict upper bound of a list of naturals (0 for the empty list). -/
def natsBound : List Nat → Nat
  | [] => 0
  | x :: xs => max (x + 1) (natsBound xs)

theorem lt_natsBound {x : Nat} : ∀ {l : List Nat}, x ∈ l → x < natsBound l
  | _ :: xs, h => by
    rcases List.mem_cons.mp h with h | h
    · subst h; exact lt_of_lt_of_le (Nat.lt_succ_self x) (le_max_left _ _)
    · exact lt_of_lt_of_le (lt_natsBound h) (le_max_right _ _)

/-- Insert a new id immediately before (isBefore = true) or after the first
occurrence of an anchor id in a sibling list; unchanged if the anchor does
not occur. -/
def insertNear (isBefore : Bool) (anc newId : Nat) : List Nat → List Nat
  | [] => []
  | x :: xs =>
    if x = anc then
      if isBefore then newId :: x :: xs else x :: newId :: xs
    else
      x :: insertNear isBefore anc newId xs

theorem mem_insertNear {x anc newId : Nat} {b : Bool} :
    ∀ {l : List Nat}, x ∈ insertNear b anc newId l → x = newId ∨ x ∈ l
  | [], h => Or.inr h
  | y :: ys, h => by
    by_cases hy : y = anc
    · simp only [insertNear, if_pos hy] at h
      simp only [List.mem_cons]
      cases b <;> simp only [Bool.false_eq_true, if_false, if_true, List.mem_cons] at h <;> tauto
    · simp only [insertNear, if_neg hy, List.mem_cons] at h
      rcases h with h | h
      · exact Or.inr (List.mem_cons.mpr (Or.inl h))
      · rcases mem_insertNear h with h | h
        · exact Or.inl h
        · exact Or.inr (List.mem_cons.mpr (Or.inr h))

theorem insertNear_mem_self {anc newId : Nat} {b : Bool} :
    ∀ {l : List Nat}, anc ∈ l → newId ∈ insertNear b anc newId l
  | y :: ys, h => by
    by_cases hy : y = anc
    · simp only [insertNear, if_pos hy]
      cases b <;> simp
    · simp only [insertNear, if_neg hy, List.mem_cons]
      rcases List.mem_cons.mp h with h | h
      · exact absurd h.symm hy
      · exact Or.inr (insertNear_mem_self h)

/-- A document: association list from node id to its ordered child list,
plus the selector-match table (node id to the selector ids the element
matches).  The body element is node 0. -/
structure Dom where
  kids : List (Nat × List Nat)
  sels : List (Nat × List Nat)
deriving DecidableEq, Repr

/-- Ordered child list of a node (empty when the node has no entry). -/
def Dom.childrenOf (d : Dom) (p : Nat) : List Nat :=
  match d.kids.find? (fun pr => pr.1 == p) with
  | some pr => pr.2
  | none => []

/-- Parent of a node: the key of the first entry whose child list contains
it, as in the DOM parentNode pointer. -/
def Dom.parentOf (d : Dom) (n : Nat) : Option Nat :=
  (d.kids.find? (fun pr => pr.2.contains n)).map (fun pr => pr.1)

/-- Replace the child list of a node (adding an entry when absent). -/
def Dom.setKids (d : Dom) (p : Nat) (l : List Nat) : Dom :=
  if (d.kids.find? (fun pr => pr.1 == p)).isSome then
    { d with kids := d.kids.map (fun pr => if pr.1 == p then (p, l) else pr) }
  else
    { d with kids := d.kids ++ [(p, l)] }

/-- Element.remove(): detach a node from every child list (its own subtree
entries stay, representing the detached subtree). -/
def Dom.removeNode (d : Dom) (n : Nat) : Dom :=
  { d with kids := d.kids.map (fun pr => (pr.1, pr.2.filter (fun x => x != n))) }

/-- Position mode of the portal (the position prop of the component). -/
inductive Pos where
  | append
  | prepend
  | before
  | after
deriving DecidableEq, Repr

/-- Element.insertAdjacentElement: beforeend/afterbegin insert into the
anchor; beforebegin/afterend insert among the anchor's siblings and return
null when the anchor has no parent (DOM insert-adjacent algorithm), which
createContainer surfaces as a null container. -/
def Dom.insertAdjacent (d : Dom) (pos : Pos) (anc newId : Nat) : Option Dom :=
  match pos with
  | Pos.append => some (d.setKids anc (d.childrenOf anc ++ [newId]))
  | Pos.prepend => some (d.setKids anc (newId :: d.childrenOf anc))
  | Pos.before =>
    match d.parentOf anc with
    | none => none
    | some _ => some { d with kids := d.kids.map (fun pr => (pr.1, insertNear true anc newId pr.2)) }
  | Pos.after =>
    match d.parentOf anc with
    | none => none
    | some _ => some { d with kids := d.kids.map (fun pr => (pr.1, insertNear false anc newId pr.2)) }

/-- Fuel for the depth-first traversal: one unit per entry and child slot. -/
def Dom.fuelN (d : Dom) : Nat :=
  d.kids.foldl (fun a pr => a + 1 + pr.2.length) 1

/-- Depth-first preorder traversal of the document from a worklist. -/
def Dom.dfsList (d : Dom) : Nat → List Nat → List Nat
  | 0, _ => []
  | _ + 1, [] => []
  | fuel + 1, n :: rest => n :: d.dfsList fuel (d.childrenOf n ++ rest)

/-- Document order: preorder traversal starting at body (node 0). -/
def Dom.docOrder (d : Dom) : List Nat :=
  d.dfsList (d.fuelN * 2 + 2) [0]

/-- Element.matches: whether a node matches a selector id. -/
def Dom.nodeMatches (d : Dom) (n sel : Nat) : Bool :=
  match d.sels.find? (fun pr => pr.1 == n) with
  | some pr => pr.2.contains sel
  | none => false

/-- Node.contains: inclusive subtree membership. -/
def Dom.containsN (d : Dom) (c n : Nat) : Bool :=
  (d.dfsList (d.fuelN * 2 + 2) [c]).contains n

/-- Strict upper bound on every id occurring in a child list of the
document; fresh ids handed out by document.createElement start here. -/
def Dom.bound (d : Dom) : Nat :=
  natsBound (d.kids.flatMap (fun pr => pr.2))

/-- A selector string: an id for the selector text plus whether the text is
syntactically valid at the platform query level. -/
structure Selector where
  id : Nat
  valid : Bool
deriving DecidableEq, Repr

/-- A thrown JavaScript exception. -/
inductive Err where
  | thrown (code : Nat)
  | invalidSelector (id : Nat)
deriving DecidableEq, Repr

/-- The anchor prop, a tagged union over the runtime type tests of
resolveAnchor (string / function / object with a current field / element
or null).  A caller-supplied zero-argument resolver function is embedded
as a function of the ambient document (its only implicit input) that may
also throw. -/
inductive AnchorSpec where
  | selector (s : Selector)
  | resolver (f : Dom → Except Err (Option Nat))
  | refHandle (current : Option Nat)
  | element (e : Option Nat)

/-- document.querySelector: first element in document order matching the
selector text. -/
def Dom.querySelector (d : Dom) (s : Selector) : Option Nat :=
  d.docOrder.find? (fun n => d.nodeMatches n s.id)

/-- resolveAnchor from src/packages/component/src/index.ts lines 50-60
(identical in src/unnamed/part_001 lines 33-43): a case analysis on the
runtime type of the anchor prop.  querySelector throws on an invalid
selector; a resolver function may throw; no branch catches anything. -/
def resolveAnchor (d : Dom) (a : AnchorSpec) : Except Err (Option Nat) :=
  match a with
  | AnchorSpec.selector s =>
    if s.valid then Except.ok (d.querySelector s) else Except.error (Err.invalidSelector s.id)
  | AnchorSpec.resolver f => f d
  | AnchorSpec.refHandle c => Except.ok c
  | AnchorSpec.element e => Except.ok e

/-- A node as it appears in a MutationRecord node list. -/
structure BNode where
  id : Nat
  isElem : Bool
deriving DecidableEq, Repr

/-- One childList MutationRecord: added and removed nodes. -/
structure MutationRec where
  added : List BNode
  removed : List Nat
deriving DecidableEq, Repr

/-- Every node id mentioned in a mutation batch. -/
def batchNodes (batch : List MutationRec) : List Nat :=
  batch.flatMap (fun mu => mu.added.map (fun n => n.id) ++ mu.removed)

namespace MP

/-- Per-record trigger test of the MutationObserver callback in
src/packages/component/src/index.ts lines 78-94: fire if the current
anchor is among removedNodes; otherwise, only for a string anchor, fire if
some added element node matches the selector. -/
def mutationTrigger (d : Dom) (spec : AnchorSpec) (aRef : Option Nat)
    (mu : MutationRec) : Bool :=
  if (match aRef with
      | some a => mu.removed.contains a
      | none => false) then
    true
  else
    match spec with
    | AnchorSpec.selector s =>
      mu.added.any (fun n => n.isElem && d.nodeMatches n.id s.id)
    | _ => false

/-- mutations.some(...) of the observer callback. -/
def shouldUpdate (d : Dom) (spec : AnchorSpec) (aRef : Option Nat)
    (batch : List MutationRec) : Bool :=
  batch.any (mutationTrigger d spec aRef)

end MP

namespace MP1

/-- isSelfMutation from src/unnamed/part_001 lines 138-140: flatten the
added and removed nodes of the batch and test whether any of them lies
inside the instance's current container (optional chaining yields false
when there is no container). -/
def isSelfMutation (d : Dom) (container : Option Nat)
    (batch : List MutationRec) : Bool :=
  (batchNodes batch).any (fun n =>
    match container with
    | some c => d.containsN c n
    | none => false)

/-- The observer callback of part_001 line 141 runs update() exactly when
the batch is not a self mutation. -/
def watcherTriggers (d : Dom) (container : Option Nat)
    (batch : List MutationRec) : Bool :=
  !(isSelfMutation d container batch)

end MP1

/-- A DOM mutation performed by the component, in execution order. -/
inductive DomOp where
  | create (n : Nat)
  | remove (n : Nat)
  | insert (n : Nat) (pos : Pos) (anc : Nat)
deriving DecidableEq, Repr

/-- A lifecycle callback invocation.  The anchor argument of onUnmount is
read from the live anchor ref at cleanup time and can be null (the source
forces it with a non-null assertion). -/
inductive Ev where
  | mount (anc c : Nat)
  | unmount (anc : Option Nat) (c : Nat)
deriving DecidableEq, Repr

/-- Containers named by the mount events, in order of occurrence. -/
def mountContainers (es : List Ev) : List Nat :=
  es.filterMap (fun e =>
    match e with
    | Ev.mount _ c => some c
    | Ev.unmount _ _ => none)

/-- Fixed props of one portal instance: the anchor spec, the position and
the initial document.  Lifecycle callbacks are taken as fixed for the
lifetime of the instance. -/
structure P where
  spec : AnchorSpec
  pos : Pos
  dom0 : Dom

/-- Run-time state of one portal instance together with the document, the
cumulative DOM-operation trace and the cumulative callback trace.
created is the (ghost) list of container ids this instance ever allocated
with document.createElement. -/
structure M where
  dom : Dom
  container : Option Nat
  anchorRef : Option Nat
  refHandle : Option Nat
  nextId : Nat
  dep : Option (Option Nat)
  cleanup : Option Nat
  events : List Ev
  ops : List DomOp
  created : List Nat
  crashed : Bool
  torn : Bool
deriving DecidableEq, Repr

/-- Initial state: no container, no anchor, ref empty, effects never ran;
fresh ids start above every id attached in the initial document. -/
def M.init (p : P) : M :=
  { dom := p.dom0, container := none, anchorRef := none, refHandle := none,
    nextId := p.dom0.bound, dep := none, cleanup := none,
    events := [], ops := [], created := [], crashed := false, torn := false }

/-- Commands driving one instance: a resolution pass (the initial
updateAnchor call and any observer-triggered one), delivery of a mutation
batch to the observer callback, an external document change, and instance
teardown. -/
inductive Cmd where
  | pass
  | deliver (batch : List MutationRec)
  | docChange (d : Dom)
  | teardown

namespace MP

/-- updateAnchor from src/packages/component/src/index.ts lines 62-72:
resolve the anchor (propagating any exception), then inside the
setContainer updater remove the previous container, store the new anchor
in anchorRef, create and insert a fresh container when an anchor was
resolved (null when insertAdjacentElement yields null), and write the new
container (or null) into the caller-supplied ref.  A thrown exception
aborts the pass before any DOM mutation and propagates to the caller,
modelled by the crashed flag.  removePrevDom is the document after the
prevContainer?.remove() step at the top of the setContainer updater. -/
def removePrevDom (m : M) : Dom :=
  match m.container with
  | some c => m.dom.removeNode c
  | none => m.dom

/-- DOM operations performed by that removal. -/
def removePrevOps (m : M) : List DomOp :=
  match m.container with
  | some c => [DomOp.remove c]
  | none => []

/-- updateAnchor continued: after the removal of the previous container,
store the new anchor, create and insert the fresh container when an anchor
was resolved, and write the result into the caller-supplied ref. -/
def updateAnchorM (p : P) (m : M) : M :=
  match resolveAnchor m.dom p.spec with
  | Except.error _ => { m with crashed := true }
  | Except.ok none =>
    { m with
        dom := removePrevDom m, container := none, anchorRef := none,
        refHandle := none, ops := m.ops ++ removePrevOps m }
  | Except.ok (some a) =>
    match (removePrevDom m).insertAdjacent p.pos a m.nextId with
    | some d2 =>
      { m with
          dom := d2, container := some m.nextId, anchorRef := some a,
          refHandle := some m.nextId, nextId := m.nextId + 1,
          created := m.created ++ [m.nextId],
          ops := m.ops ++ removePrevOps m ++ [DomOp.create m.nextId, DomOp.insert m.nextId p.pos a] }
    | none =>
      { m with
          dom := removePrevDom m, container := none, anchorRef := some a,
          refHandle := none, nextId := m.nextId + 1,
          created := m.created ++ [m.nextId],
          ops := m.ops ++ removePrevOps m ++ [DomOp.create m.nextId] }

/-- React commit of the lifecycle useEffect (index.ts lines 109-116, deps
[container]): when the container state changed by identity since the last
run, first run the registered cleanup (onUnmount with the live anchorRef
and the captured container), then, when both anchorRef and container are
set, fire onMount and register a cleanup capturing the container.  cleanupEvs is the callback invocation
performed by the registered cleanup, if one is registered: onUnmount with
the anchor read live from anchorRef and the captured container. -/
def cleanupEvs (m : M) : List Ev :=
  match m.cleanup with
  | some cc => [Ev.unmount m.anchorRef cc]
  | none => []

/-- React commit continued: run the pending cleanup, then the effect body. -/
def commit (m : M) : M :=
  if m.dep = some m.container then m
  else
    match m.anchorRef, m.container with
    | some a, some c =>
      { m with
          dep := some m.container, cleanup := some c,
          events := (m.events ++ cleanupEvs m) ++ [Ev.mount a c] }
    | some _, none =>
      { m with dep := some m.container, cleanup := none, events := m.events ++ cleanupEvs m }
    | none, _ =>
      { m with dep := some m.container, cleanup := none, events := m.events ++ cleanupEvs m }

/-- Guard on an external document change: external actors neither reattach
nor detach this instance's own created nodes, and introduce no node id
colliding with ids this instance may still allocate. -/
def docChangeOk (m : M) (d : Dom) : Bool :=
  d.kids.all (fun pr => pr.2.all (fun x => decide (x < m.nextId))) &&
  m.created.all (fun c => d.parentOf c == m.dom.parentOf c)

/-- A full resolution pass: updateAnchor, then, when no exception was
thrown, the React commit of the resulting effects (a thrown exception
propagates before setContainer runs, so no commit happens). -/
def passStep (p : P) (m : M) : M :=
  if (updateAnchorM p m).crashed then updateAnchorM p m else commit (updateAnchorM p m)

/-- One step of the instance.  After teardown (observer disconnected) or a
propagated exception, nothing further happens. -/
def step (p : P) (c : Cmd) (m : M) : M :=
  if m.torn || m.crashed then m
  else
    match c with
    | Cmd.pass => passStep p m
    | Cmd.deliver batch =>
      if shouldUpdate m.dom p.spec m.anchorRef batch then passStep p m else m
    | Cmd.docChange d => if docChangeOk m d then { m with dom := d } else m
    | Cmd.teardown =>
      { m with torn := true, cleanup := none, events := m.events ++ cleanupEvs m }

/-- A run of the instance from mount over a list of commands. -/
def run (p : P) (cs : List Cmd) : M :=
  cs.foldl (fun m c => step p c m) (M.init p)

end MP

namespace DP

/-- updateAnchor from src/unnamed/part_000 lines 61-90: resolve the anchor
exactly as the packaged variant does, but act only when the freshly
resolved anchor differs by identity from currentAnchorRef.current; in that
case remove the old container and clear the forwarded ref, store the new
anchor, then create the new container; the removal of the old container
clears the forwarded ref (lines 76-85) and createPortalContainer fills it
again only when insertion succeeded. -/
def updateAnchorM (p : P) (m : M) : M :=
  match resolveAnchor m.dom p.spec with
  | Except.error _ => { m with crashed := true }
  | Except.ok newAnchor =>
    if newAnchor = m.anchorRef then m
    else
      match newAnchor with
      | none =>
        { m with
            dom := MP.removePrevDom m, container := none, anchorRef := none,
            refHandle := if m.container.isSome then none else m.refHandle,
            ops := m.ops ++ MP.removePrevOps m }
      | some a =>
        match (MP.removePrevDom m).insertAdjacent p.pos a m.nextId with
        | some d2 =>
          { m with
              dom := d2, container := some m.nextId, anchorRef := some a,
              refHandle := some m.nextId, nextId := m.nextId + 1,
              created := m.created ++ [m.nextId],
              ops := m.ops ++ MP.removePrevOps m ++ [DomOp.create m.nextId, DomOp.insert m.nextId p.pos a] }
        | none =>
          { m with
              dom := MP.removePrevDom m, container := none, anchorRef := some a,
              refHandle := if m.container.isSome then none else m.refHandle,
              nextId := m.nextId + 1,
              created := m.created ++ [m.nextId],
              ops := m.ops ++ MP.removePrevOps m ++ [DomOp.create m.nextId] }

/-- React commit of the mount/unmount useEffect of part_000 lines 135-146:
as in the packaged variant, except that the cleanup skips onUnmount when
currentAnchorRef.current is null at cleanup time (cleanupEvs). -/
def cleanupEvs (m : M) : List Ev :=
  match m.cleanup, m.anchorRef with
  | some cc, some a => [Ev.unmount (some a) cc]
  | some _, none => []
  | none, _ => []

/-- React commit of the part_000 lifecycle effect. -/
def commit (m : M) : M :=
  if m.dep = some m.container then m
  else
    match m.anchorRef, m.container with
    | some a, some c =>
      { m with
          dep := some m.container, cleanup := some c,
          events := (m.events ++ cleanupEvs m) ++ [Ev.mount a c] }
    | some _, none =>
      { m with dep := some m.container, cleanup := none, events := m.events ++ cleanupEvs m }
    | none, _ =>
      { m with dep := some m.container, cleanup := none, events := m.events ++ cleanupEvs m }

/-- One resolution pass of the DynamicPortal variant: updateAnchor followed
by the React commit of its effects. -/
def pass (p : P) (m : M) : M :=
  commit (updateAnchorM p m)

end DP

/-- Document with body (node 0) containing one element (node 1) that
matches selector 5. -/
def d0 : Dom :=
  { kids := [(0, [1])], sels := [(1, [5])] }

/-- Portal instance props: selector anchor number 5, append position, over
the document d0. -/
def p0 : P :=
  { spec := AnchorSpec.selector { id := 5, valid := true }, pos := Pos.append, dom0 := d0 }

/-- Document with body (node 0) containing elements 1 and 3, both matching
selector 5. -/
def dSelf : Dom :=
  { kids := [(0, [1, 3])], sels := [(1, [5]), (3, [5])] }

/-- Portal instance props for the self-mutation scenario: selector anchor
5, append position, over dSelf. -/
def pSelf : P :=
  { spec := AnchorSpec.selector { id := 5, valid := true }, pos := Pos.append, dom0 := dSelf }

/-- Document state after the instance's own content rendering moved
element 3 inside the instance's container (node 4): the kind of change
React performs when it renders portal children into the container. -/
def dSelfAfter : Dom :=
  { kids := [(0, [1]), (1, [4]), (4, [3])], sels := [(1, [5]), (3, [5])] }

/-- Mutation batch produced by that rendering: one record whose only node
is element 3, added inside the container. -/
def batchSelf : List MutationRec :=
  [{ added := [{ id := 3, isElem := true }], removed := [] }]

/-! Lemmas about the document model. -/

theorem contains_true_iff {l : List Nat} {a : Nat} : l.contains a = true ↔ a ∈ l := by
  simp

theorem Dom.parentOf_eq_none_iff {d : Dom} {x : Nat} :
    d.parentOf x = none ↔ ∀ pr ∈ d.kids, x ∉ pr.2 := by
  unfold Dom.parentOf
  constructor
  · intro h pr hpr hx
    cases hfind : d.kids.find? (fun pr => pr.2.contains x) with
    | some e => rw [hfind] at h; simp at h
    | none =>
      have hnone := List.find?_eq_none.mp hfind pr hpr
      exact hnone (contains_true_iff.mpr hx)
  · intro h
    cases hfind : d.kids.find? (fun pr => pr.2.contains x) with
    | none => rfl
    | some e =>
      have he := List.mem_of_find?_eq_some hfind
      have hp : x ∈ e.2 := by simpa using List.find?_some hfind
      exact absurd hp (h e he)

theorem Dom.parentOf_isSome_of_mem {d : Dom} {x : Nat} {pr : Nat × List Nat}
    (hpr : pr ∈ d.kids) (hx : x ∈ pr.2) : (d.parentOf x).isSome = true := by
  unfold Dom.parentOf
  cases hfind : d.kids.find? (fun q => q.2.contains x) with
  | some e => rfl
  | none =>
    have hnone := List.find?_eq_none.mp hfind pr hpr
    exact absurd (contains_true_iff.mpr hx) hnone

theorem Dom.parentOf_removeNode_self (d : Dom) (c : Nat) :
    (d.removeNode c).parentOf c = none := by
  rw [Dom.parentOf_eq_none_iff]
  intro pr hpr hc
  unfold Dom.removeNode at hpr
  simp only [List.mem_map] at hpr
  obtain ⟨q, _, rfl⟩ := hpr
  have hne := (List.mem_filter.mp hc).2
  simp at hne

theorem Dom.parentOf_removeNode_none {d : Dom} {x c : Nat} (h : d.parentOf x = none) :
    (d.removeNode c).parentOf x = none := by
  rw [Dom.parentOf_eq_none_iff] at h ⊢
  intro pr hpr hx
  unfold Dom.removeNode at hpr
  simp only [List.mem_map] at hpr
  obtain ⟨q, hq, rfl⟩ := hpr
  exact h q hq (List.mem_filter.mp hx).1

theorem Dom.mem_setKids {d : Dom} {p : Nat} {l : List Nat} {pr : Nat × List Nat}
    (h : pr ∈ (d.setKids p l).kids) : pr = (p, l) ∨ pr ∈ d.kids := by
  unfold Dom.setKids at h
  by_cases hf : (d.kids.find? (fun pr => pr.1 == p)).isSome
  · rw [if_pos hf] at h
    simp only [List.mem_map] at h
    obtain ⟨q, hq, heq⟩ := h
    by_cases hqp : (q.1 == p) = true
    · left; rw [← heq]; simp [hqp]
    · right; rw [← heq]; simp [hqp]; exact hq
  · rw [if_neg hf] at h
    rcases List.mem_append.mp h with h | h
    · exact Or.inr h
    · simp only [List.mem_singleton] at h; exact Or.inl h

theorem Dom.setKids_self_mem (d : Dom) (p : Nat) (l : List Nat) :
    (p, l) ∈ (d.setKids p l).kids := by
  unfold Dom.setKids
  by_cases hf : (d.kids.find? (fun pr => pr.1 == p)).isSome
  · rw [if_pos hf]
    obtain ⟨e, he⟩ := Option.isSome_iff_exists.mp hf
    refine List.mem_map.mpr ⟨e, List.mem_of_find?_eq_some he, ?_⟩
    have hkey := List.find?_some he
    simp [hkey]
  · rw [if_neg hf]
    exact List.mem_append.mpr (Or.inr (List.mem_singleton.mpr rfl))

theorem Dom.childrenOf_sub {d : Dom} {p x : Nat} (h : x ∈ d.childrenOf p) :
    ∃ pr ∈ d.kids, x ∈ pr.2 := by
  unfold Dom.childrenOf at h
  cases hfind : d.kids.find? (fun pr => pr.1 == p) with
  | none => rw [hfind] at h; simp at h
  | some e => rw [hfind] at h; exact ⟨e, List.mem_of_find?_eq_some hfind, h⟩

/-- Any id in a child list after insertAdjacent is the inserted id or was
already in some child list before. -/
theorem Dom.insertAdjacent_mem {d d2 : Dom} {pos : Pos} {a newId : Nat}
    (h : d.insertAdjacent pos a newId = some d2) {pr : Nat × List Nat}
    (hpr : pr ∈ d2.kids) {x : Nat} (hx : x ∈ pr.2) :
    x = newId ∨ ∃ q ∈ d.kids, x ∈ q.2 := by
  cases pos with
  | append =>
    simp only [Dom.insertAdjacent, Option.some_inj] at h
    subst h
    rcases Dom.mem_setKids hpr with h | h
    · subst h
      rcases List.mem_append.mp hx with h | h
      · exact Or.inr (Dom.childrenOf_sub h)
      · simp only [List.mem_singleton] at h; exact Or.inl h
    · exact Or.inr ⟨pr, h, hx⟩
  | prepend =>
    simp only [Dom.insertAdjacent, Option.some_inj] at h
    subst h
    rcases Dom.mem_setKids hpr with h | h
    · subst h
      rcases List.mem_cons.mp hx with h | h
      · exact Or.inl h
      · exact Or.inr (Dom.childrenOf_sub h)
    · exact Or.inr ⟨pr, h, hx⟩
  | before =>
    simp only [Dom.insertAdjacent] at h
    cases hp : d.parentOf a with
    | none => rw [hp] at h; cases h
    | some t =>
      rw [hp] at h
      simp only [Option.some_inj] at h
      subst h
      simp only [List.mem_map] at hpr
      obtain ⟨q, hq, rfl⟩ := hpr
      rcases mem_insertNear hx with h | h
      · exact Or.inl h
      · exact Or.inr ⟨q, hq, h⟩
  | after =>
    simp only [Dom.insertAdjacent] at h
    cases hp : d.parentOf a with
    | none => rw [hp] at h; cases h
    | some t =>
      rw [hp] at h
      simp only [Option.some_inj] at h
      subst h
      simp only [List.mem_map] at hpr
      obtain ⟨q, hq, rfl⟩ := hpr
      rcases mem_insertNear hx with h | h
      · exact Or.inl h
      · exact Or.inr ⟨q, hq, h⟩

/-- A detached node other than the inserted one stays detached across
insertAdjacent. -/
theorem Dom.insertAdjacent_parent_none {d d2 : Dom} {pos : Pos} {a newId x : Nat}
    (h : d.insertAdjacent pos a newId = some d2) (hx : d.parentOf x = none)
    (hne : x ≠ newId) : d2.parentOf x = none := by
  rw [Dom.parentOf_eq_none_iff] at hx ⊢
  intro pr hpr hmem
  rcases Dom.insertAdjacent_mem h hpr hmem with hh | ⟨q, hq, hxq⟩
  · exact hne hh
  · exact hx q hq hxq

/-- The inserted node is attached after a successful insertAdjacent. -/
theorem Dom.insertAdjacent_attached {d d2 : Dom} {pos : Pos} {a newId : Nat}
    (h : d.insertAdjacent pos a newId = some d2) : (d2.parentOf newId).isSome = true := by
  cases pos with
  | append =>
    simp only [Dom.insertAdjacent, Option.some_inj] at h
    subst h
    exact Dom.parentOf_isSome_of_mem (Dom.setKids_self_mem d a _)
      (List.mem_append.mpr (Or.inr (List.mem_singleton.mpr rfl)))
  | prepend =>
    simp only [Dom.insertAdjacent, Option.some_inj] at h
    subst h
    exact Dom.parentOf_isSome_of_mem (Dom.setKids_self_mem d a _)
      (List.mem_cons_self _ _)
  | before =>
    simp only [Dom.insertAdjacent] at h
    cases hp : d.parentOf a with
    | none => rw [hp] at h; cases h
    | some t =>
      rw [hp] at h
      simp only [Option.some_inj] at h
      subst h
      unfold Dom.parentOf at hp
      cases hfind : d.kids.find? (fun q => q.2.contains a) with
      | none => rw [hfind] at hp; cases hp
      | some e =>
        have hea : a ∈ e.2 := by simpa using List.find?_some hfind
        have hemem := List.mem_of_find?_eq_some hfind
        refine Dom.parentOf_isSome_of_mem
          (List.mem_map.mpr ⟨e, hemem, rfl⟩) (insertNear_mem_self hea)
  | after =>
    simp only [Dom.insertAdjacent] at h
    cases hp : d.parentOf a with
    | none => rw [hp] at h; cases h
    | some t =>
      rw [hp] at h
      simp only [Option.some_inj] at h
      subst h
      unfold Dom.parentOf at hp
      cases hfind : d.kids.find? (fun q => q.2.contains a) with
      | none => rw [hfind] at hp; cases hp
      | some e =>
        have hea : a ∈ e.2 := by simpa using List.find?_some hfind
        have hemem := List.mem_of_find?_eq_some hfind
        refine Dom.parentOf_isSome_of_mem
          (List.mem_map.mpr ⟨e, hemem, rfl⟩) (insertNear_mem_self hea)

/-- Every id occurring in some child list of the document is below n. -/
def KidsBounded (d : Dom) (n : Nat) : Prop :=
  ∀ pr ∈ d.kids, ∀ x ∈ pr.2, x < n

theorem KidsBounded.mono {d : Dom} {n k : Nat} (h : KidsBounded d n) (hnk : n ≤ k) :
    KidsBounded d k :=
  fun pr hpr x hx => lt_of_lt_of_le (h pr hpr x hx) hnk

theorem KidsBounded.removeNode {d : Dom} {n c : Nat} (h : KidsBounded d n) :
    KidsBounded (d.removeNode c) n := by
  intro pr hpr x hx
  unfold Dom.removeNode at hpr
  simp only [List.mem_map] at hpr
  obtain ⟨q, hq, rfl⟩ := hpr
  exact h q hq x (List.mem_filter.mp hx).1

theorem KidsBounded.insertAdjacent {d d2 : Dom} {pos : Pos} {a newId n : Nat}
    (h : KidsBounded d n) (hnew : newId < n)
    (hins : d.insertAdjacent pos a newId = some d2) : KidsBounded d2 n := by
  intro pr hpr x hx
  rcases Dom.insertAdjacent_mem hins hpr hx with hh | ⟨q, hq, hxq⟩
  · subst hh; exact hnew
  · exact h q hq x hxq

theorem KidsBounded.parentOf_none {d : Dom} {n x : Nat} (h : KidsBounded d n)
    (hx : n ≤ x) : d.parentOf x = none := by
  rw [Dom.parentOf_eq_none_iff]
  intro pr hpr hmem
  exact absurd (h pr hpr x hmem) (not_lt.mpr hx)

theorem KidsBounded.init (d : Dom) : KidsBounded d d.bound := by
  intro pr hpr x hx
  exact lt_natsBound (List.mem_flatMap.mpr ⟨pr, hpr, hx⟩)

theorem MP.docChangeOk_spec {m : M} {d : Dom} (h : MP.docChangeOk m d = true) :
    KidsBounded d m.nextId ∧ ∀ c ∈ m.created, d.parentOf c = m.dom.parentOf c := by
  unfold MP.docChangeOk at h
  rw [Bool.and_eq_true] at h
  constructor
  · intro pr hpr x hx
    have h1 := List.all_eq_true.mp h.1 pr hpr
    have h2 := List.all_eq_true.mp h1 x hx
    exact of_decide_eq_true h2
  · intro c hc
    have h2 := List.all_eq_true.mp h.2 c hc
    exact eq_of_beq h2

/-! Event-trace well-formedness: mounts and unmounts alternate, each
unmount naming the container of the mount it closes; the second index is
the container of the currently open mount, if any. -/

inductive WfEv : List Ev → Option Nat → Prop where
  | nil : WfEv [] none
  | mnt {es : List Ev} {a c : Nat} : WfEv es none → WfEv (es ++ [Ev.mount a c]) (some c)
  | unm {es : List Ev} {a : Option Nat} {c : Nat} :
      WfEv es (some c) → WfEv (es ++ [Ev.unmount a c]) none

theorem mountContainers_append (l1 l2 : List Ev) :
    mountContainers (l1 ++ l2) = mountContainers l1 ++ mountContainers l2 :=
  List.filterMap_append l1 l2 _

theorem mountContainers_unmount (l : List Ev) (a : Option Nat) (c : Nat) :
    mountContainers (l ++ [Ev.unmount a c]) = mountContainers l := by
  rw [mountContainers_append]
  simp [mountContainers]

theorem mountContainers_mount (l : List Ev) (a c : Nat) :
    mountContainers (l ++ [Ev.mount a c]) = mountContainers l ++ [c] := by
  rw [mountContainers_append]
  simp [mountContainers]

namespace MP

/-- Reachability invariant of the MagicPortal instance machine. -/
structure Inv (m : M) : Prop where
  kb : KidsBounded m.dom m.nextId
  created_lt : ∀ c ∈ m.created, c < m.nextId
  container_created : ∀ c, m.container = some c → c ∈ m.created
  detached : ∀ c ∈ m.created, m.container ≠ some c → m.dom.parentOf c = none
  attached : ∀ c, m.container = some c → (m.dom.parentOf c).isSome = true
  refEq : m.refHandle = m.container
  wf : WfEv m.events m.cleanup
  mountsLt : ∀ x ∈ mountContainers m.events, x < m.nextId
  mountsPw : (mountContainers m.events).Pairwise (· < ·)
  mountsLe : ∀ x ∈ mountContainers m.events, ∀ c, m.container = some c → x ≤ c
  mountedDep : ∀ c, m.container = some c → c ∈ mountContainers m.events →
    m.dep = some m.container
  depLt : ∀ c, m.dep = some (some c) → c < m.nextId

theorem inv_init (p : P) : Inv (M.init p) := by
  refine ⟨KidsBounded.init p.dom0, ?_, ?_, ?_, ?_, rfl, WfEv.nil, ?_, ?_, ?_, ?_, ?_⟩ <;>
    simp [M.init, mountContainers]

theorem inv_removePrev {m : M} (h : Inv m) :
    KidsBounded (removePrevDom m) m.nextId ∧
    (∀ c ∈ m.created, (removePrevDom m).parentOf c = none) := by
  unfold removePrevDom
  cases hc : m.container with
  | none =>
    refine ⟨h.kb, fun c hcr => ?_⟩
    exact h.detached c hcr (by simp [hc])
  | some c0 =>
    refine ⟨KidsBounded.removeNode h.kb, fun c hcr => ?_⟩
    by_cases hcc : c = c0
    · subst hcc; exact Dom.parentOf_removeNode_self m.dom c
    · exact Dom.parentOf_removeNode_none
        (h.detached c hcr (by simp [hc]; exact fun hh => hcc hh.symm))

theorem updateAnchorM_err {p : P} {m : M} {e : Err}
    (hres : resolveAnchor m.dom p.spec = Except.error e) :
    updateAnchorM p m = { m with crashed := true } := by
  unfold updateAnchorM
  rw [hres]

theorem updateAnchorM_none {p : P} {m : M}
    (hres : resolveAnchor m.dom p.spec = Except.ok none) :
    updateAnchorM p m =
      { m with
          dom := removePrevDom m, container := none, anchorRef := none,
          refHandle := none, ops := m.ops ++ removePrevOps m } := by
  unfold updateAnchorM
  rw [hres]

theorem updateAnchorM_some_ins {p : P} {m : M} {a : Nat} {d2 : Dom}
    (hres : resolveAnchor m.dom p.spec = Except.ok (some a))
    (hins : (removePrevDom m).insertAdjacent p.pos a m.nextId = some d2) :
    updateAnchorM p m =
      { m with
          dom := d2, container := some m.nextId, anchorRef := some a,
          refHandle := some m.nextId, nextId := m.nextId + 1,
          created := m.created ++ [m.nextId],
          ops := m.ops ++ removePrevOps m ++ [DomOp.create m.nextId, DomOp.insert m.nextId p.pos a] } := by
  unfold updateAnchorM
  rw [hres]
  dsimp only
  rw [hins]

theorem updateAnchorM_some_fail {p : P} {m : M} {a : Nat}
    (hres : resolveAnchor m.dom p.spec = Except.ok (some a))
    (hins : (removePrevDom m).insertAdjacent p.pos a m.nextId = none) :
    updateAnchorM p m =
      { m with
          dom := removePrevDom m, container := none, anchorRef := some a,
          refHandle := none, nextId := m.nextId + 1,
          created := m.created ++ [m.nextId],
          ops := m.ops ++ removePrevOps m ++ [DomOp.create m.nextId] } := by
  unfold updateAnchorM
  rw [hres]
  dsimp only
  rw [hins]

theorem inv_updateAnchorM {p : P} {m : M} (h : Inv m) : Inv (updateAnchorM p m) := by
  have hrp := inv_removePrev h
  cases hres : resolveAnchor m.dom p.spec with
  | error e =>
    rw [updateAnchorM_err hres]
    exact ⟨h.kb, h.created_lt, h.container_created, h.detached, h.attached, h.refEq,
           h.wf, h.mountsLt, h.mountsPw, h.mountsLe, h.mountedDep, h.depLt⟩
  | ok newAnchor =>
    cases newAnchor with
    | none =>
      rw [updateAnchorM_none hres]
      refine ⟨hrp.1, h.created_lt, ?_, ?_, ?_, rfl, h.wf, h.mountsLt, h.mountsPw, ?_, ?_, h.depLt⟩
      · intro c hcon; cases hcon
      · intro c hcr _
        exact hrp.2 c hcr
      · intro c hcon; cases hcon
      · intro x _ c hcon; cases hcon
      · intro c hcon; cases hcon
    | some a =>
      cases hins : (removePrevDom m).insertAdjacent p.pos a m.nextId with
      | some d2 =>
        rw [updateAnchorM_some_ins hres hins]
        refine ⟨?_, ?_, ?_, ?_, ?_, rfl, h.wf, ?_, h.mountsPw, ?_, ?_, ?_⟩
        · exact KidsBounded.insertAdjacent (hrp.1.mono (Nat.le_succ _))
            (Nat.lt_succ_self _) hins
        · intro c hc
          rcases List.mem_append.mp hc with hc | hc
          · exact lt_trans (h.created_lt c hc) (Nat.lt_succ_self _)
          · simp only [List.mem_singleton] at hc; subst hc; exact Nat.lt_succ_self _
        · intro c hcon
          simp only [Option.some_inj] at hcon
          subst hcon
          exact List.mem_append.mpr (Or.inr (List.mem_singleton.mpr rfl))
        · intro c hc hne
          rcases List.mem_append.mp hc with hc | hc
          · refine Dom.insertAdjacent_parent_none hins (hrp.2 c hc) ?_
            intro he; subst he
            exact absurd (h.created_lt _ hc) (lt_irrefl _)
          · simp only [List.mem_singleton] at hc; subst hc
            exact absurd rfl hne
        · intro c hcon
          simp only [Option.some_inj] at hcon
          subst hcon
          exact Dom.insertAdjacent_attached hins
        · intro x hx
          exact lt_trans (h.mountsLt x hx) (Nat.lt_succ_self _)
        · intro x hx c hcon
          simp only [Option.some_inj] at hcon
          subst hcon
          exact Nat.le_of_lt (h.mountsLt x hx)
        · intro c hcon hmem
          simp only [Option.some_inj] at hcon
          subst hcon
          exact absurd (h.mountsLt _ hmem) (lt_irrefl _)
        · intro c hdep
          exact lt_trans (h.depLt c hdep) (Nat.lt_succ_self _)
      | none =>
        rw [updateAnchorM_some_fail hres hins]
        refine ⟨hrp.1.mono (Nat.le_succ _), ?_, ?_, ?_, ?_, rfl, h.wf, ?_, h.mountsPw,
                ?_, ?_, ?_⟩
        · intro c hc
          rcases List.mem_append.mp hc with hc | hc
          · exact lt_trans (h.created_lt c hc) (Nat.lt_succ_self _)
          · simp only [List.mem_singleton] at hc; subst hc; exact Nat.lt_succ_self _
        · intro c hcon; cases hcon
        · intro c hc _
          rcases List.mem_append.mp hc with hc | hc
          · exact hrp.2 c hc
          · simp only [List.mem_singleton] at hc; subst hc
            exact hrp.1.parentOf_none (le_refl _)
        · intro c hcon; cases hcon
        · intro x hx
          exact lt_trans (h.mountsLt x hx) (Nat.lt_succ_self _)
        · intro x _ c hcon; cases hcon
        · intro c hcon; cases hcon
        · intro c hdep
          exact lt_trans (h.depLt c hdep) (Nat.lt_succ_self _)

theorem wfev_after_cleanup {m : M} (h : WfEv m.events m.cleanup) :
    WfEv (m.events ++ cleanupEvs m) none := by
  unfold cleanupEvs
  cases hc : m.cleanup with
  | none => rw [hc] at h; simpa using h
  | some cc => exact WfEv.unm (hc ▸ h)

theorem mounts_after_cleanup (m : M) :
    mountContainers (m.events ++ cleanupEvs m) = mountContainers m.events := by
  unfold cleanupEvs
  cases m.cleanup with
  | none => simp
  | some cc => exact mountContainers_unmount m.events m.anchorRef cc

theorem commit_skip {m : M} (h : m.dep = some m.container) : commit m = m := by
  unfold commit
  rw [if_pos h]

theorem commit_mount {m : M} {a c : Nat} (hdep : ¬m.dep = some m.container)
    (haR : m.anchorRef = some a) (hcon : m.container = some c) :
    commit m =
      { m with
          dep := some m.container, cleanup := some c,
          events := (m.events ++ cleanupEvs m) ++ [Ev.mount a c] } := by
  unfold commit
  rw [if_neg hdep, haR, hcon]

theorem commit_nomount {m : M} (hdep : ¬m.dep = some m.container)
    (hnm : m.anchorRef = none ∨ m.container = none) :
    commit m =
      { m with dep := some m.container, cleanup := none,
               events := m.events ++ cleanupEvs m } := by
  unfold commit
  rw [if_neg hdep]
  cases haR : m.anchorRef with
  | none => rfl
  | some a =>
    cases hcon : m.container with
    | none => rfl
    | some c =>
      rcases hnm with h | h
      · rw [haR] at h; cases h
      · rw [hcon] at h; cases h

theorem inv_commit {m : M} (h : Inv m) : Inv (commit m) := by
  by_cases hdep : m.dep = some m.container
  · rw [commit_skip hdep]; exact h
  · cases haR : m.anchorRef with
    | none =>
      rw [commit_nomount hdep (Or.inl haR)]
      refine ⟨h.kb, h.created_lt, h.container_created, h.detached, h.attached, h.refEq,
              wfev_after_cleanup h.wf, ?_, ?_, ?_, ?_, ?_⟩
      · rw [mounts_after_cleanup]; exact h.mountsLt
      · rw [mounts_after_cleanup]; exact h.mountsPw
      · rw [mounts_after_cleanup]; exact h.mountsLe
      · intro c _ _; rfl
      · intro c hc
        simp only [Option.some_inj] at hc
        exact h.created_lt c (h.container_created c hc)
    | some a =>
      cases hcon : m.container with
      | none =>
        rw [commit_nomount hdep (Or.inr hcon)]
        refine ⟨h.kb, h.created_lt, h.container_created, h.detached, h.attached, h.refEq,
                wfev_after_cleanup h.wf, ?_, ?_, ?_, ?_, ?_⟩
        · rw [mounts_after_cleanup]; exact h.mountsLt
        · rw [mounts_after_cleanup]; exact h.mountsPw
        · rw [mounts_after_cleanup]; exact h.mountsLe
        · intro c _ _; rfl
        · intro c hc
          simp only [Option.some_inj] at hc
          exact h.created_lt c (h.container_created c hc)
      | some c =>
        have hclt : c < m.nextId := h.created_lt c (h.container_created c hcon)
        rw [commit_mount hdep haR hcon]
        have hmounts :
            mountContainers ((m.events ++ cleanupEvs m) ++ [Ev.mount a c]) =
              mountContainers m.events ++ [c] := by
          rw [mountContainers_mount, mounts_after_cleanup]
        refine ⟨h.kb, h.created_lt, h.container_created, h.detached, h.attached, h.refEq,
                ?_, ?_, ?_, ?_, ?_, ?_⟩
        · exact WfEv.mnt (wfev_after_cleanup h.wf)
        · rw [hmounts]
          intro x hx
          rcases List.mem_append.mp hx with hx | hx
          · exact h.mountsLt x hx
          · simp only [List.mem_singleton] at hx; subst hx; exact hclt
        · rw [hmounts]
          rw [List.pairwise_append]
          refine ⟨h.mountsPw, List.pairwise_singleton _ _, ?_⟩
          intro x hx y hy
          simp only [List.mem_singleton] at hy
          rw [hy]
          refine lt_of_le_of_ne (h.mountsLe x hx c hcon) ?_
          intro he
          exact hdep (h.mountedDep c hcon (he ▸ hx))
        · rw [hmounts]
          intro x hx c2 hc2
          rw [hcon] at hc2
          simp only [Option.some_inj] at hc2
          subst hc2
          rcases List.mem_append.mp hx with hx | hx
          · exact h.mountsLe x hx c hcon
          · simp only [List.mem_singleton] at hx; subst hx; exact le_refl _
        · intro c2 _ _; rfl
        · intro c2 hc2
          rw [hcon] at hc2
          simp only [Option.some_inj] at hc2
          subst hc2
          exact hclt

theorem inv_passStep {p : P} {m : M} (h : Inv m) : Inv (passStep p m) := by
  unfold passStep
  by_cases hcr : (updateAnchorM p m).crashed = true
  · rw [if_pos hcr]; exact inv_updateAnchorM h
  · rw [if_neg hcr]; exact inv_commit (inv_updateAnchorM h)

theorem inv_step {p : P} {c : Cmd} {m : M} (h : Inv m) : Inv (step p c m) := by
  unfold step
  by_cases hstop : (m.torn || m.crashed) = true
  · rw [if_pos hstop]; exact h
  · rw [if_neg hstop]
    cases c with
    | pass => exact inv_passStep h
    | deliver batch =>
      dsimp only
      by_cases hsu : shouldUpdate m.dom p.spec m.anchorRef batch
      · rw [if_pos hsu]; exact inv_passStep h
      · rw [if_neg hsu]; exact h
    | docChange d =>
      dsimp only
      by_cases hok : docChangeOk m d = true
      · rw [if_pos hok]
        obtain ⟨hkb, hpar⟩ := docChangeOk_spec hok
        refine ⟨hkb, h.created_lt, h.container_created, ?_, ?_, h.refEq, h.wf,
                h.mountsLt, h.mountsPw, h.mountsLe, h.mountedDep, h.depLt⟩
        · intro c hc hne
          rw [hpar c hc]
          exact h.detached c hc hne
        · intro c hc
          rw [hpar c (h.container_created c hc)]
          exact h.attached c hc
      · rw [if_neg hok]; exact h
    | teardown =>
      dsimp only
      refine ⟨h.kb, h.created_lt, h.container_created, h.detached, h.attached, h.refEq,
              wfev_after_cleanup h.wf, ?_, ?_, ?_, ?_, h.depLt⟩
      · rw [mounts_after_cleanup]; exact h.mountsLt
      · rw [mounts_after_cleanup]; exact h.mountsPw
      · rw [mounts_after_cleanup]; exact h.mountsLe
      · intro c hc hmem
        rw [mounts_after_cleanup] at hmem
        exact h.mountedDep c hc hmem

theorem inv_foldl {p : P} : ∀ (cs : List Cmd) (m : M), Inv m →
    Inv (cs.foldl (fun m c => step p c m) m)
  | [], _, h => h
  | c :: cs, m, h => inv_foldl cs (step p c m) (inv_step h)

/-- Every state reachable by a run satisfies the machine invariant. -/
theorem inv_run (p : P) (cs : List Cmd) : Inv (run p cs) :=
  inv_foldl cs (M.init p) (inv_init p)

end MP

/-- Helper: find? returns the first element satisfying the predicate. -/
theorem find?_first {α : Type} {p : α → Bool} :
    ∀ {l : List α} {n : α}, l.find? p = some n →
      ∃ front back, l = front ++ n :: back ∧ ∀ x ∈ front, p x = false
  | [], n, h => by cases h
  | y :: ys, n, h => by
    by_cases hy : p y = true
    · rw [List.find?_cons_of_pos _ hy] at h
      injection h with h
      subst h
      exact ⟨[], ys, rfl, by simp⟩
    · rw [List.find?_cons_of_neg _ hy] at h
      obtain ⟨front, back, heq, hall⟩ := find?_first h
      refine ⟨y :: front, back, by rw [heq]; rfl, ?_⟩
      intro x hx
      rcases List.mem_cons.mp hx with hx | hx
      · subst hx; exact Bool.not_eq_true _ ▸ Bool.of_not_eq_true hy
      · exact hall x hx

/-- C7: anchor resolution is an exhaustive case analysis over the kind of
the anchor spec: a selector yields the first matching element of the
document order (or none, exactly when nothing matches); a function anchor
is invoked and its result returned unchanged; a ref handle is dereferenced
to its current value; a direct element or null is returned as-is. -/
theorem resolveAnchor_exhaustive :
    (∀ (d : Dom) (s : Selector), s.valid = true →
      resolveAnchor d (AnchorSpec.selector s) = Except.ok (d.querySelector s) ∧
      (∀ n, d.querySelector s = some n →
        d.nodeMatches n s.id = true ∧
        ∃ front back, d.docOrder = front ++ n :: back ∧
          ∀ x ∈ front, d.nodeMatches x s.id = false) ∧
      (d.querySelector s = none → ∀ x ∈ d.docOrder, d.nodeMatches x s.id = false)) ∧
    (∀ (d : Dom) (f : Dom → Except Err (Option Nat)),
      resolveAnchor d (AnchorSpec.resolver f) = f d) ∧
    (∀ (d : Dom) (c : Option Nat),
      resolveAnchor d (AnchorSpec.refHandle c) = Except.ok c) ∧
    (∀ (d : Dom) (e : Option Nat),
      resolveAnchor d (AnchorSpec.element e) = Except.ok e) := by
  refine ⟨?_, fun d f => rfl, fun d c => rfl, fun d e => rfl⟩
  intro d s hv
  refine ⟨by simp [resolveAnchor, hv], ?_, ?_⟩
  · intro n hq
    unfold Dom.querySelector at hq
    have hmatch : d.nodeMatches n s.id = true := by simpa using List.find?_some hq
    exact ⟨hmatch, find?_first hq⟩
  · intro hq x hx
    unfold Dom.querySelector at hq
    have := List.find?_eq_none.mp hq x hx
    exact Bool.of_not_eq_true this

theorem resolveAnchor_exhaustive_witness :
    resolveAnchor d0 (AnchorSpec.selector { id := 5, valid := true }) =
      Except.ok (d0.querySelector { id := 5, valid := true }) ∧
    d0.querySelector { id := 5, valid := true } = some 1 :=
  ⟨(resolveAnchor_exhaustive.1 d0 { id := 5, valid := true } rfl).1, by decide⟩

/-- C8: a throwing resolver function or a syntactically invalid selector
makes the whole resolution pass throw: resolveAnchor catches nothing, the
pass performs no DOM mutation and fires no callback (only the propagated
exception is recorded), and the machine makes no recovery step afterwards. -/
theorem resolve_errors_propagate :
    (∀ (d : Dom) (f : Dom → Except Err (Option Nat)) (e : Err),
      f d = Except.error e → resolveAnchor d (AnchorSpec.resolver f) = Except.error e) ∧
    (∀ (d : Dom) (s : Selector), s.valid = false →
      resolveAnchor d (AnchorSpec.selector s) = Except.error (Err.invalidSelector s.id)) ∧
    (∀ (p : P) (m : M) (e : Err), resolveAnchor m.dom p.spec = Except.error e →
      MP.passStep p m = { m with crashed := true }) ∧
    (∀ (p : P) (c : Cmd) (m : M), m.crashed = true → MP.step p c m = m) := by
  refine ⟨fun d f e h => h, ?_, ?_, ?_⟩
  · intro d s hv
    simp [resolveAnchor, hv]
  · intro p m e hres
    unfold MP.passStep
    rw [MP.updateAnchorM_err hres]
    simp
  · intro p c m hcr
    unfold MP.step
    rw [hcr]
    simp

theorem resolve_errors_propagate_witness :
    resolveAnchor d0 (AnchorSpec.resolver (fun _ => Except.error (Err.thrown 3))) =
      Except.error (Err.thrown 3) ∧
    MP.passStep { spec := AnchorSpec.resolver (fun _ => Except.error (Err.thrown 3)),
                  pos := Pos.append, dom0 := d0 }
        (M.init { spec := AnchorSpec.resolver (fun _ => Except.error (Err.thrown 3)),
                  pos := Pos.append, dom0 := d0 }) =
      { M.init { spec := AnchorSpec.resolver (fun _ => Except.error (Err.thrown 3)),
                 pos := Pos.append, dom0 := d0 } with crashed := true } ∧
    MP.step { spec := AnchorSpec.resolver (fun _ => Except.error (Err.thrown 3)),
              pos := Pos.append, dom0 := d0 } Cmd.pass
        { M.init { spec := AnchorSpec.resolver (fun _ => Except.error (Err.thrown 3)),
                   pos := Pos.append, dom0 := d0 } with crashed := true } =
      { M.init { spec := AnchorSpec.resolver (fun _ => Except.error (Err.thrown 3)),
                 pos := Pos.append, dom0 := d0 } with crashed := true } :=
  ⟨resolve_errors_propagate.1 d0 _ (Err.thrown 3) rfl,
   resolve_errors_propagate.2.2.1 _ _ (Err.thrown 3) rfl,
   resolve_errors_propagate.2.2.2 _ Cmd.pass _ rfl⟩

theorem MP.mutationTrigger_iff (d : Dom) (spec : AnchorSpec) (aRef : Option Nat)
    (mu : MutationRec) :
    MP.mutationTrigger d spec aRef mu = true ↔
      ((∃ a, aRef = some a ∧ a ∈ mu.removed) ∨
       (∃ s, spec = AnchorSpec.selector s ∧
         ∃ n ∈ mu.added, n.isElem = true ∧ d.nodeMatches n.id s.id = true)) := by
  unfold MP.mutationTrigger
  cases aRef with
  | some a =>
    dsimp only
    by_cases hrm : mu.removed.contains a = true
    · rw [hrm]
      simp only [if_true]
      constructor
      · intro _
        exact Or.inl ⟨a, rfl, contains_true_iff.mp hrm⟩
      · intro _; trivial
    · rw [Bool.not_eq_true] at hrm
      rw [hrm]
      simp only [Bool.false_eq_true, if_false]
      cases spec with
      | selector s =>
        rw [List.any_eq_true]
        constructor
        · rintro ⟨n, hn, hsat⟩
          rw [Bool.and_eq_true] at hsat
          exact Or.inr ⟨s, rfl, n, hn, hsat.1, hsat.2⟩
        · rintro (⟨a2, ha2, hmem⟩ | ⟨s2, hs2, n, hn, he, hm⟩)
          · injection ha2 with ha2
            subst ha2
            exact absurd (contains_true_iff.mpr hmem)
              (by rw [hrm]; exact fun hh => by cases hh)
          · injection hs2 with hs2
            subst hs2
            exact ⟨n, hn, by rw [Bool.and_eq_true]; exact ⟨he, hm⟩⟩
      | resolver f =>
        simp only [Bool.false_eq_true, false_iff]
        rintro (⟨a2, ha2, hmem⟩ | ⟨s2, hs2, _⟩)
        · injection ha2 with ha2
          subst ha2
          exact absurd (contains_true_iff.mpr hmem)
            (by rw [hrm]; exact fun hh => by cases hh)
        · cases hs2
      | refHandle c =>
        simp only [Bool.false_eq_true, false_iff]
        rintro (⟨a2, ha2, hmem⟩ | ⟨s2, hs2, _⟩)
        · injection ha2 with ha2
          subst ha2
          exact absurd (contains_true_iff.mpr hmem)
            (by rw [hrm]; exact fun hh => by cases hh)
        · cases hs2
      | element e =>
        simp only [Bool.false_eq_true, false_iff]
        rintro (⟨a2, ha2, hmem⟩ | ⟨s2, hs2, _⟩)
        · injection ha2 with ha2
          subst ha2
          exact absurd (contains_true_iff.mpr hmem)
            (by rw [hrm]; exact fun hh => by cases hh)
        · cases hs2
  | none =>
    dsimp only
    simp only [Bool.false_eq_true, if_false]
    cases spec with
    | selector s =>
      rw [List.any_eq_true]
      constructor
      · rintro ⟨n, hn, hsat⟩
        rw [Bool.and_eq_true] at hsat
        exact Or.inr ⟨s, rfl, n, hn, hsat.1, hsat.2⟩
      · rintro (⟨a2, ha2, _⟩ | ⟨s2, hs2, n, hn, he, hm⟩)
        · cases ha2
        · injection hs2 with hs2
          subst hs2
          exact ⟨n, hn, by rw [Bool.and_eq_true]; exact ⟨he, hm⟩⟩
    | resolver f =>
      simp only [Bool.false_eq_true, false_iff]
      rintro (⟨a2, ha2, _⟩ | ⟨s2, hs2, _⟩)
      · cases ha2
      · cases hs2
    | refHandle c =>
      simp only [Bool.false_eq_true, false_iff]
      rintro (⟨a2, ha2, _⟩ | ⟨s2, hs2, _⟩)
      · cases ha2
      · cases hs2
    | element e =>
      simp only [Bool.false_eq_true, false_iff]
      rintro (⟨a2, ha2, _⟩ | ⟨s2, hs2, _⟩)
      · cases ha2
      · cases hs2

theorem MP.shouldUpdate_spec (d : Dom) (spec : AnchorSpec) (aRef : Option Nat)
    (batch : List MutationRec) :
    MP.shouldUpdate d spec aRef batch = true ↔
      ((∃ mu ∈ batch, ∃ a, aRef = some a ∧ a ∈ mu.removed) ∨
       (∃ s, spec = AnchorSpec.selector s ∧
         ∃ mu ∈ batch, ∃ n ∈ mu.added, n.isElem = true ∧
           d.nodeMatches n.id s.id = true)) := by
  unfold MP.shouldUpdate
  rw [List.any_eq_true]
  simp only [MP.mutationTrigger_iff]
  constructor
  · rintro ⟨mu, hmu, h | ⟨s, hs, n, hn, he, hm⟩⟩
    · exact Or.inl ⟨mu, hmu, h⟩
    · exact Or.inr ⟨s, hs, mu, hmu, n, hn, he, hm⟩
  · rintro (⟨mu, hmu, h⟩ | ⟨s, hs, mu, hmu, n, hn, he, hm⟩)
    · exact ⟨mu, hmu, Or.inl h⟩
    · exact ⟨mu, hmu, Or.inr ⟨s, hs, n, hn, he, hm⟩⟩

/-- C5: the observer triggers re-resolution exactly when the current
anchor is among a record's removed nodes, or the anchor spec is a selector
string and some added element node of a record matches it; for element,
function and ref anchors, added nodes are never scanned (the right
disjunct requires the spec to be a selector). -/
theorem MP.shouldUpdate_iff (d : Dom) (spec : AnchorSpec) (aRef : Option Nat)
    (batch : List MutationRec) :
    MP.shouldUpdate d spec aRef batch = true ↔
      ((∃ mu ∈ batch, ∃ a, aRef = some a ∧ a ∈ mu.removed) ∨
       (∃ s, spec = AnchorSpec.selector s ∧
         ∃ mu ∈ batch, ∃ n ∈ mu.added, n.isElem = true ∧
           d.nodeMatches n.id s.id = true)) :=
  MP.shouldUpdate_spec d spec aRef batch

/-- C10: the anchor-removal check of the observer tests only direct
membership in removedNodes.  Removing the anchor itself always triggers a
pass; a batch that removes only an ancestor of the anchor (detaching the
anchor indirectly) and adds nothing triggers no re-resolution, and the
instance state persists unchanged. -/
theorem MP.removal_check_direct :
    (∀ (d : Dom) (spec : AnchorSpec) (a : Nat) (batch : List MutationRec),
      (∃ mu ∈ batch, a ∈ mu.removed) →
      MP.shouldUpdate d spec (some a) batch = true) ∧
    (∀ (p : P) (m : M) (a r : Nat) (batch : List MutationRec),
      m.torn = false → m.crashed = false →
      m.anchorRef = some a →
      (∀ mu ∈ batch, a ∉ mu.removed) →
      (∀ mu ∈ batch, mu.added = []) →
      (∃ mu ∈ batch, r ∈ mu.removed) →
      m.dom.containsN r a = true → r ≠ a →
      MP.shouldUpdate m.dom p.spec m.anchorRef batch = false ∧
      MP.step p (Cmd.deliver batch) m = m) := by
  constructor
  · intro d spec a batch ⟨mu, hmu, hmem⟩
    exact (MP.shouldUpdate_spec d spec (some a) batch).mpr
      (Or.inl ⟨mu, hmu, a, rfl, hmem⟩)
  · intro p m a r batch htorn hcr haR hnrm hadd _ _ _
    have hsu : MP.shouldUpdate m.dom p.spec m.anchorRef batch = false := by
      rw [Bool.eq_false_iff]
      intro htr
      rcases (MP.shouldUpdate_spec m.dom p.spec m.anchorRef batch).mp htr with
        ⟨mu, hmu, a2, ha2, hmem⟩ | ⟨s, _, mu, hmu, n, hn, _⟩
      · rw [haR] at ha2
        injection ha2 with ha2
        subst ha2
        exact hnrm mu hmu hmem
      · rw [hadd mu hmu] at hn
        cases hn
    refine ⟨hsu, ?_⟩
    unfold MP.step
    rw [htorn, hcr]
    simp only [Bool.or_self, Bool.false_eq_true, if_false]
    rw [hsu]
    simp

theorem MP.removal_check_direct_witness :
    MP.shouldUpdate (MP.run p0 [Cmd.pass]).dom p0.spec
        (MP.run p0 [Cmd.pass]).anchorRef
        [{ added := [], removed := [0] }] = false ∧
    MP.step p0 (Cmd.deliver [{ added := [], removed := [0] }])
        (MP.run p0 [Cmd.pass]) = MP.run p0 [Cmd.pass] :=
  (MP.removal_check_direct).2 p0 (MP.run p0 [Cmd.pass]) 1 0
    [{ added := [], removed := [0] }]
    (by decide) (by decide) (by decide) (by decide) (by decide)
    ⟨{ added := [], removed := [0] }, by decide, by decide⟩ (by decide) (by decide)

theorem MP.removePrevOps_some {m : M} {c : Nat} (h : m.container = some c) :
    MP.removePrevOps m = [DomOp.remove c] := by
  unfold MP.removePrevOps
  rw [h]

/-- C3: in every reachable state the instance has at most one of its
created containers attached to the document, and on every resolution pass
that starts with a live container and resolves an anchor, the DOM
operation trace removes the previous container first, before the new
container is created (and possibly inserted); the previous container is
fully detached in the resulting document. -/
theorem MP.single_container (p : P) (cs : List Cmd) :
    (∀ c1 c2, c1 ∈ (MP.run p cs).created → c2 ∈ (MP.run p cs).created →
      ((MP.run p cs).dom.parentOf c1).isSome = true →
      ((MP.run p cs).dom.parentOf c2).isSome = true → c1 = c2) ∧
    (∀ prev a, (MP.run p cs).container = some prev →
      resolveAnchor (MP.run p cs).dom p.spec = Except.ok (some a) →
      ∃ tail,
        (MP.updateAnchorM p (MP.run p cs)).ops =
          (MP.run p cs).ops ++
            (DomOp.remove prev :: DomOp.create (MP.run p cs).nextId :: tail) ∧
        (MP.updateAnchorM p (MP.run p cs)).dom.parentOf prev = none) := by
  have h := MP.inv_run p cs
  constructor
  · intro c1 c2 hc1 hc2 hp1 hp2
    have ha1 : (MP.run p cs).container = some c1 := by
      by_contra hne
      rw [h.detached c1 hc1 hne] at hp1
      cases hp1
    have ha2 : (MP.run p cs).container = some c2 := by
      by_contra hne
      rw [h.detached c2 hc2 hne] at hp2
      cases hp2
    rw [ha1] at ha2
    injection ha2
  · intro prev a hcon hres
    have hprevcr : prev ∈ (MP.run p cs).created := h.container_created prev hcon
    have hprevlt : prev < (MP.run p cs).nextId := h.created_lt prev hprevcr
    have hdet : (MP.removePrevDom (MP.run p cs)).parentOf prev = none :=
      (MP.inv_removePrev h).2 prev hprevcr
    cases hins : (MP.removePrevDom (MP.run p cs)).insertAdjacent p.pos a
        (MP.run p cs).nextId with
    | some d2 =>
      refine ⟨[DomOp.insert (MP.run p cs).nextId p.pos a], ?_, ?_⟩
      · rw [MP.updateAnchorM_some_ins hres hins]
        rw [MP.removePrevOps_some hcon]
        simp
      · rw [MP.updateAnchorM_some_ins hres hins]
        exact Dom.insertAdjacent_parent_none hins hdet (Nat.ne_of_lt hprevlt)
    | none =>
      refine ⟨[], ?_, ?_⟩
      · rw [MP.updateAnchorM_some_fail hres hins]
        rw [MP.removePrevOps_some hcon]
        simp
      · rw [MP.updateAnchorM_some_fail hres hins]
        exact hdet

theorem MP.single_container_witness :
    (MP.run p0 [Cmd.pass]).container = some 2 ∧
    resolveAnchor (MP.run p0 [Cmd.pass]).dom p0.spec = Except.ok (some 1) ∧
    (∃ tail,
      (MP.updateAnchorM p0 (MP.run p0 [Cmd.pass])).ops =
        (MP.run p0 [Cmd.pass]).ops ++
          (DomOp.remove 2 :: DomOp.create (MP.run p0 [Cmd.pass]).nextId :: tail) ∧
      (MP.updateAnchorM p0 (MP.run p0 [Cmd.pass])).dom.parentOf 2 = none) :=
  ⟨by decide, by rfl,
   (MP.single_container p0 [Cmd.pass]).2 2 1 (by decide) (by rfl)⟩

theorem MP.run_append_pass (p : P) (cs : List Cmd) :
    MP.run p (cs ++ [Cmd.pass]) = MP.step p Cmd.pass (MP.run p cs) := by
  unfold MP.run
  rw [List.foldl_append]
  rfl

/-- C1 amended, proved for the packaged MagicPortal (index.ts), whose
lifecycle cleanup runs unconditionally: over every run with fixed props
and callbacks, the callback trace is an alternation of mounts and
matching unmounts (onMount never fires twice for a pair without the
intervening onUnmount, and each unmount releases exactly the pair opened
by the previous mount; teardown closes the trace), the containers of the
mount events are pairwise distinct (so onMount fires at most once per
(anchor, container) pair), and every pass whose resolution attaches a new
container fires onMount exactly once for that pair, preceded only by the
cleanup of the previous pair.  The DynamicPortal variant (part_000)
instead guards its cleanup on the live anchor ref and can release a pair
with no onUnmount at all (DP.unmount_skipped_on_null_anchor). -/
theorem MP.lifecycle_exactly_once (p : P) (cs : List Cmd) :
    WfEv (MP.run p cs).events (MP.run p cs).cleanup ∧
    (mountContainers (MP.run p cs).events).Pairwise (· < ·) ∧
    (∀ a c, (MP.run p cs).torn = false → (MP.run p cs).crashed = false →
      (MP.updateAnchorM p (MP.run p cs)).crashed = false →
      (MP.updateAnchorM p (MP.run p cs)).anchorRef = some a →
      (MP.updateAnchorM p (MP.run p cs)).container = some c →
      ∃ front, (MP.run p (cs ++ [Cmd.pass])).events = front ++ [Ev.mount a c] ∧
        mountContainers front = mountContainers (MP.run p cs).events) := by
  have h := MP.inv_run p cs
  refine ⟨h.wf, h.mountsPw, ?_⟩
  intro a c htorn hcr hcr1 haR hcon
  rw [MP.run_append_pass]
  unfold MP.step
  rw [htorn, hcr]
  simp only [Bool.or_self, Bool.false_eq_true, if_false]
  unfold MP.passStep
  rw [hcr1]
  simp only [Bool.false_eq_true, if_false]
  cases hres : resolveAnchor (MP.run p cs).dom p.spec with
  | error e =>
    rw [MP.updateAnchorM_err hres] at hcr1
    simp at hcr1
  | ok newAnchor =>
    cases newAnchor with
    | none =>
      rw [MP.updateAnchorM_none hres] at hcon
      simp at hcon
    | some a2 =>
      cases hins : (MP.removePrevDom (MP.run p cs)).insertAdjacent p.pos a2
          (MP.run p cs).nextId with
      | none =>
        rw [MP.updateAnchorM_some_fail hres hins] at hcon
        simp at hcon
      | some d2 =>
        have heq := MP.updateAnchorM_some_ins (p := p) (m := MP.run p cs) hres hins
        rw [heq] at haR hcon
        simp only [Option.some_inj] at haR hcon
        subst haR
        subst hcon
        rw [heq]
        have hdep :
            ¬({ MP.run p cs with
                  dom := d2, container := some (MP.run p cs).nextId,
                  anchorRef := some a2, refHandle := some (MP.run p cs).nextId,
                  nextId := (MP.run p cs).nextId + 1,
                  created := (MP.run p cs).created ++ [(MP.run p cs).nextId],
                  ops := (MP.run p cs).ops ++ MP.removePrevOps (MP.run p cs) ++
                    [DomOp.create (MP.run p cs).nextId,
                     DomOp.insert (MP.run p cs).nextId p.pos a2] } : M).dep =
              some ({ MP.run p cs with
                  dom := d2, container := some (MP.run p cs).nextId,
                  anchorRef := some a2, refHandle := some (MP.run p cs).nextId,
                  nextId := (MP.run p cs).nextId + 1,
                  created := (MP.run p cs).created ++ [(MP.run p cs).nextId],
                  ops := (MP.run p cs).ops ++ MP.removePrevOps (MP.run p cs) ++
                    [DomOp.create (MP.run p cs).nextId,
                     DomOp.insert (MP.run p cs).nextId p.pos a2] } : M).container := by
          intro hd
          exact absurd (h.depLt _ hd) (lt_irrefl _)
        rw [MP.commit_mount hdep rfl rfl]
        exact ⟨_, rfl, by rw [mounts_after_cleanup]⟩

theorem MP.lifecycle_exactly_once_witness :
    ∃ front, (MP.run p0 ([] ++ [Cmd.pass])).events = front ++ [Ev.mount 1 2] ∧
      mountContainers front = mountContainers (MP.run p0 []).events :=
  (MP.lifecycle_exactly_once p0 []).2.2 1 2 (by decide) (by decide) (by decide)
    (by decide) (by decide)

/-- Props for a direct-element anchor with a chosen position over an
initial document. -/
def elemProps (d : Dom) (a : Nat) (pos : Pos) : P :=
  { spec := AnchorSpec.element (some a), pos := pos, dom0 := d }

/-- C6: a parentless anchor (no parent node) with position before or after
yields no container and fires neither onMount nor onUnmount over the whole
life of the instance, while the same anchor with append or prepend yields
a normal container: it is created, attached, and handed to onMount
exactly once. -/
theorem MP.parentless_anchor (d : Dom) (a : Nat) (hpar : d.parentOf a = none) :
    ((MP.run (elemProps d a Pos.before) [Cmd.pass]).container = none ∧
     (MP.run (elemProps d a Pos.before) [Cmd.pass, Cmd.teardown]).events = []) ∧
    ((MP.run (elemProps d a Pos.after) [Cmd.pass]).container = none ∧
     (MP.run (elemProps d a Pos.after) [Cmd.pass, Cmd.teardown]).events = []) ∧
    ((MP.run (elemProps d a Pos.append) [Cmd.pass]).container = some d.bound ∧
     ((MP.run (elemProps d a Pos.append) [Cmd.pass]).dom.parentOf d.bound).isSome = true ∧
     (MP.run (elemProps d a Pos.append) [Cmd.pass]).events = [Ev.mount a d.bound]) ∧
    ((MP.run (elemProps d a Pos.prepend) [Cmd.pass]).container = some d.bound ∧
     ((MP.run (elemProps d a Pos.prepend) [Cmd.pass]).dom.parentOf d.bound).isSome = true ∧
     (MP.run (elemProps d a Pos.prepend) [Cmd.pass]).events = [Ev.mount a d.bound]) := by
  have hinsB : (MP.removePrevDom (M.init (elemProps d a Pos.before))).insertAdjacent
      Pos.before a (M.init (elemProps d a Pos.before)).nextId = none := by
    show d.insertAdjacent Pos.before a d.bound = none
    unfold Dom.insertAdjacent
    rw [hpar]
  have hinsA : (MP.removePrevDom (M.init (elemProps d a Pos.after))).insertAdjacent
      Pos.after a (M.init (elemProps d a Pos.after)).nextId = none := by
    show d.insertAdjacent Pos.after a d.bound = none
    unfold Dom.insertAdjacent
    rw [hpar]
  have h1B := MP.updateAnchorM_some_fail (p := elemProps d a Pos.before)
    (m := M.init (elemProps d a Pos.before)) rfl hinsB
  have h1A := MP.updateAnchorM_some_fail (p := elemProps d a Pos.after)
    (m := M.init (elemProps d a Pos.after)) rfl hinsA
  have hpassB : MP.run (elemProps d a Pos.before) [Cmd.pass] =
      MP.commit (MP.updateAnchorM (elemProps d a Pos.before)
        (M.init (elemProps d a Pos.before))) := by
    show MP.passStep (elemProps d a Pos.before) (M.init (elemProps d a Pos.before)) = _
    unfold MP.passStep
    rw [h1B]
    rfl
  have hpassA : MP.run (elemProps d a Pos.after) [Cmd.pass] =
      MP.commit (MP.updateAnchorM (elemProps d a Pos.after)
        (M.init (elemProps d a Pos.after))) := by
    show MP.passStep (elemProps d a Pos.after) (M.init (elemProps d a Pos.after)) = _
    unfold MP.passStep
    rw [h1A]
    rfl
  refine ⟨⟨?_, ?_⟩, ⟨?_, ?_⟩, ⟨rfl, ?_, rfl⟩, ⟨rfl, ?_, rfl⟩⟩
  · rw [hpassB, h1B]
    rfl
  · rw [show MP.run (elemProps d a Pos.before) [Cmd.pass, Cmd.teardown] =
        MP.step (elemProps d a Pos.before) Cmd.teardown
          (MP.run (elemProps d a Pos.before) [Cmd.pass]) from rfl, hpassB, h1B]
    rfl
  · rw [hpassA, h1A]
    rfl
  · rw [show MP.run (elemProps d a Pos.after) [Cmd.pass, Cmd.teardown] =
        MP.step (elemProps d a Pos.after) Cmd.teardown
          (MP.run (elemProps d a Pos.after) [Cmd.pass]) from rfl, hpassA, h1A]
    rfl
  · exact Dom.insertAdjacent_attached
      (rfl : d.insertAdjacent Pos.append a d.bound =
        some (d.setKids a (d.childrenOf a ++ [d.bound])))
  · exact Dom.insertAdjacent_attached
      (rfl : d.insertAdjacent Pos.prepend a d.bound =
        some (d.setKids a (d.bound :: d.childrenOf a)))

/-- Document with no attached nodes at all; any element id is parentless. -/
def dEmpty : Dom :=
  { kids := [], sels := [] }

theorem MP.parentless_anchor_witness :
    ((MP.run (elemProps dEmpty 1 Pos.before) [Cmd.pass]).container = none ∧
     (MP.run (elemProps dEmpty 1 Pos.before) [Cmd.pass, Cmd.teardown]).events = []) ∧
    ((MP.run (elemProps dEmpty 1 Pos.append) [Cmd.pass]).container = some dEmpty.bound ∧
     (MP.run (elemProps dEmpty 1 Pos.append) [Cmd.pass]).events =
       [Ev.mount 1 dEmpty.bound]) :=
  ⟨(MP.parentless_anchor dEmpty 1 (by decide)).1,
   ⟨(MP.parentless_anchor dEmpty 1 (by decide)).2.2.1.1,
    (MP.parentless_anchor dEmpty 1 (by decide)).2.2.1.2.2⟩⟩

/-- C9 counterexample: after a successful mount, tearing the instance down
leaves the caller-supplied ref still filled with the container (and the
container still attached in the document): the packaged component has no
teardown cleanup that clears the ref or removes the container. -/
theorem MP.ref_not_cleared_on_teardown :
    (MP.run p0 [Cmd.pass, Cmd.teardown]).torn = true ∧
    (MP.run p0 [Cmd.pass, Cmd.teardown]).refHandle = some 2 ∧
    ((MP.run p0 [Cmd.pass, Cmd.teardown]).dom.parentOf 2).isSome = true := by
  decide

/-- C9 amended: the caller-supplied ref always mirrors the container state
exactly: it is filled with the container when insertAdjacentElement
succeeded, cleared when a pass yields no container or insertion failed,
and whenever it is filled the container it names is attached in the
document — but instance teardown does not clear it. -/
theorem MP.refHandle_mirrors_container (p : P) (cs : List Cmd) :
    (MP.run p cs).refHandle = (MP.run p cs).container ∧
    (∀ c, (MP.run p cs).refHandle = some c →
      ((MP.run p cs).dom.parentOf c).isSome = true) := by
  have h := MP.inv_run p cs
  refine ⟨h.refEq, ?_⟩
  intro c hc
  rw [h.refEq] at hc
  exact h.attached c hc

theorem MP.refHandle_mirrors_container_witness :
    (MP.run p0 [Cmd.pass]).refHandle = (MP.run p0 [Cmd.pass]).container ∧
    ((MP.run p0 [Cmd.pass]).dom.parentOf 2).isSome = true :=
  ⟨(MP.refHandle_mirrors_container p0 [Cmd.pass]).1,
   (MP.refHandle_mirrors_container p0 [Cmd.pass]).2 2 (by decide)⟩

/-- C4 counterexample: with the selector anchor of p0 and an unchanged
document, the second resolution pass resolves the identical anchor element
(node 1) yet removes the container it created on the first pass, creates
and inserts a fresh one, and re-fires both lifecycle callbacks — the
packaged updateAnchor has no identity guard. -/
theorem MP.second_pass_not_idempotent :
    (MP.run p0 [Cmd.pass]).anchorRef = some 1 ∧
    (MP.run p0 [Cmd.pass, Cmd.pass]).anchorRef = some 1 ∧
    (MP.run p0 [Cmd.pass]).ops = [DomOp.create 2, DomOp.insert 2 Pos.append 1] ∧
    (MP.run p0 [Cmd.pass, Cmd.pass]).ops =
      [DomOp.create 2, DomOp.insert 2 Pos.append 1, DomOp.remove 2,
       DomOp.create 3, DomOp.insert 3 Pos.append 1] ∧
    (MP.run p0 [Cmd.pass, Cmd.pass]).events =
      [Ev.mount 1 2, Ev.unmount (some 1) 2, Ev.mount 1 3] := by
  decide

theorem DP.commit_dep (m : M) : (DP.commit m).dep = some (DP.commit m).container := by
  unfold DP.commit
  by_cases hdep : m.dep = some m.container
  · rw [if_pos hdep]; exact hdep
  · rw [if_neg hdep]
    cases haR : m.anchorRef with
    | none => rfl
    | some a =>
      cases hcon : m.container with
      | none => rfl
      | some c => rfl

theorem DP.commit_noop {m : M} (h : m.dep = some m.container) : DP.commit m = m := by
  unfold DP.commit
  rw [if_pos h]

/-- C4 amended (DynamicPortal variant): a pass whose resolution yields the
anchor already stored in currentAnchorRef is a complete no-op — the
identity guard skips every DOM mutation, the container is untouched and no
callback fires, so re-resolution is idempotent. -/
theorem DP.pass_idempotent (p : P) (m : M)
    (h : resolveAnchor (DP.pass p m).dom p.spec = Except.ok (DP.pass p m).anchorRef) :
    DP.pass p (DP.pass p m) = DP.pass p m := by
  have h1 : DP.updateAnchorM p (DP.pass p m) = DP.pass p m := by
    unfold DP.updateAnchorM
    rw [h]
    dsimp only
    rw [if_pos rfl]
  show DP.commit (DP.updateAnchorM p (DP.pass p m)) = DP.pass p m
  rw [h1]
  exact DP.commit_noop (DP.commit_dep (DP.updateAnchorM p m))

/-- Props with a direct-element anchor over d0, used as concrete input. -/
def pd : P :=
  { spec := AnchorSpec.element (some 1), pos := Pos.append, dom0 := d0 }

theorem DP.pass_idempotent_witness :
    DP.pass pd (DP.pass pd (M.init pd)) = DP.pass pd (M.init pd) :=
  DP.pass_idempotent pd (M.init pd) (by rfl)

/-- C2 counterexample: a mutation batch every node of which lies inside
the instance's own current container (node 4) — the batch React produces
when it renders the portal children into the container — still triggers a
further resolution pass in the packaged component, because its observer
has no self-mutation check: the added node matches the selector, so the
container is torn down and rebuilt (container 4 is replaced by 5). -/
theorem MP.self_batch_not_ignored :
    ((batchNodes batchSelf).all (fun n =>
      (MP.run pSelf [Cmd.pass, Cmd.docChange dSelfAfter]).dom.containsN 4 n) = true) ∧
    (MP.run pSelf [Cmd.pass, Cmd.docChange dSelfAfter]).container = some 4 ∧
    MP.shouldUpdate (MP.run pSelf [Cmd.pass, Cmd.docChange dSelfAfter]).dom pSelf.spec
      (MP.run pSelf [Cmd.pass, Cmd.docChange dSelfAfter]).anchorRef batchSelf = true ∧
    (MP.run pSelf [Cmd.pass, Cmd.docChange dSelfAfter, Cmd.deliver batchSelf]).container
      = some 5 ∧
    (MP.run pSelf [Cmd.pass, Cmd.docChange dSelfAfter, Cmd.deliver batchSelf]).ops ≠
      (MP.run pSelf [Cmd.pass, Cmd.docChange dSelfAfter]).ops := by
  decide

/-- C2 amended (part_001 variant): when the instance has a container and a
nonempty mutation batch falls entirely inside it, isSelfMutation holds and
the watcher does not trigger update, so the instance's own container
writes cause no further resolution pass. -/
theorem MP1.self_batch_ignored (d : Dom) (c : Nat) (batch : List MutationRec)
    (hne : batchNodes batch ≠ [])
    (hin : ∀ n ∈ batchNodes batch, d.containsN c n = true) :
    MP1.isSelfMutation d (some c) batch = true ∧
    MP1.watcherTriggers d (some c) batch = false := by
  have hex : ∃ n, n ∈ batchNodes batch := by
    cases hb : batchNodes batch with
    | nil => exact absurd hb hne
    | cons x xs => exact ⟨x, List.mem_cons_self x xs⟩
  obtain ⟨n, hn⟩ := hex
  have hself : MP1.isSelfMutation d (some c) batch = true := by
    unfold MP1.isSelfMutation
    rw [List.any_eq_true]
    exact ⟨n, hn, hin n hn⟩
  refine ⟨hself, ?_⟩
  unfold MP1.watcherTriggers
  rw [hself]
  rfl

theorem MP1.self_batch_ignored_witness :
    MP1.isSelfMutation dSelfAfter (some 4) batchSelf = true ∧
    MP1.watcherTriggers dSelfAfter (some 4) batchSelf = false :=
  MP1.self_batch_ignored dSelfAfter 4 batchSelf (by decide) (by decide)

/-- Props for the DynamicPortal variant: selector anchor 5 over d0. -/
def pDP : P :=
  { spec := AnchorSpec.selector { id := 5, valid := true }, pos := Pos.append, dom0 := d0 }

/-- Document of the mounted DynamicPortal instance after an external
actor removed the anchor element (node 1) from the body; the detached
anchor still holds the container (node 2) in its subtree. -/
def dGone : Dom :=
  { kids := [(0, []), (1, [2])], sels := [(1, [5])] }

/-- State of the DynamicPortal instance right after its first resolution
pass mounted the pair (anchor 1, container 2). -/
def mMounted : M :=
  DP.pass pDP (M.init pDP)

/-- The same instance after the external document change that removed the
anchor. -/
def mGone : M :=
  { mMounted with dom := dGone }

/-- C1 counterexample, on the DynamicPortal variant (part_000, a cited
source of the claim): after the pair (anchor 1, container 2) is mounted
and the anchor is removed from the document, the next resolution pass
resolves null, removes the container — releasing the pair — and sets
currentAnchorRef to null before the lifecycle cleanup runs, so the
cleanup's guard on the anchor ref skips onUnmount entirely: the trace
keeps exactly one mount and no unmount, and no cleanup remains registered
that could ever fire one, falsifying that onUnmount fires exactly once
when the pair is released. -/
theorem DP.unmount_skipped_on_null_anchor :
    mMounted.events = [Ev.mount 1 2] ∧
    mMounted.container = some 2 ∧
    (DP.pass pDP mGone).container = none ∧
    (DP.pass pDP mGone).ops =
      [DomOp.create 2, DomOp.insert 2 Pos.append 1, DomOp.remove 2] ∧
    (DP.pass pDP mGone).events = [Ev.mount 1 2] ∧
    (DP.pass pDP mGone).cleanup = none := by
  decide
